import Mathlib

/-!
Verification of the vision-to-game-state pipeline of the nayan repository
(an OpenCV chess companion written in Go).

The development shallowly embeds the core modules:

* `pkg/chess/board.go`      — square/grid coordinate maps, occupancy grids,
  move inference against the legal-move generator, move application;
* `pkg/vision/processor.go` — board-quadrilateral detection, point
  reordering, temporal corner smoothing;
* `pkg/vision/squares.go`   — reference-free occupancy scanning;
* `cmd/app/main.go`         — the per-frame game state machine (debounce of
  occupancy mismatches, settle delay, move inference, invalid-move flag).

External collaborators (the `notnil/chess` rules engine and the `gocv`
image-processing primitives) are abstracted exactly where the repository
treats them as opaque: legal-move generation, position update and the board
piece map become fields of a `Rules` interface; per-square image statistics
(stddev, edge percentage) and polygon approximations become inputs.

Go `float64` arithmetic appears in exactly two comparisons, both of the form
`math.Sqrt q > t` or derived from it with integer `q` and decimal constant
`t`; those comparisons are embedded by their exact integer equivalents
(`q > t^2` etc.), which agree with the IEEE double computation for every
integer input in range because the square root of an integer is never within
double rounding error of the decision boundary unless it is exact.
-/

namespace Nayan

/-! ### Geometry: points (pkg/vision/util.go) -/

/-- A pixel coordinate, embedding Go `image.Point` (integer x, y). -/
structure Point where
  x : Int
  y : Int
deriving DecidableEq, Repr

/-- Squared Euclidean distance between two points.  The source function
`DistanceBetweenPoints` returns `math.Sqrt` of this quantity; every
comparison of that distance in the repository is against a nonnegative
constant, so the comparisons are embedded exactly on the squares. -/
def distSq (p1 p2 : Point) : Int :=
  (p2.x - p1.x) ^ 2 + (p2.y - p1.y) ^ 2

/-! ### Occupancy grids (`[8][8]bool` in Go) -/

/-- An 8x8 occupancy grid, row 0 = rank 8, col 0 = file a.  Embeds the Go
value type `[8][8]bool`; Go array equality is structural equality. -/
abbrev Grid := List (List Bool)

/-- Read cell (row, col) of a grid (out-of-range reads give `false`;
the Go loops only index 0..7 of 8x8 arrays). -/
def getCell (g : Grid) (row col : Nat) : Bool :=
  (g.getD row []).getD col false

/-- Write cell (row, col) of a grid. -/
def setCell (g : Grid) (row col : Nat) (v : Bool) : Grid :=
  g.set row ((g.getD row []).set col v)

/-- The zero value of `[8][8]bool`: all squares empty. -/
def emptyGrid : Grid := List.replicate 8 (List.replicate 8 false)

/-! ### Chess square / grid coordinate maps (pkg/chess/board.go) -/

/-- Square encoding of the external `notnil/chess` library:
`NewSquare(file, rank) = rank*8 + file`, so a1 = 0, h1 = 7, a8 = 56,
h8 = 63.  Modelled from the library interface. -/
def NewSquare (file rank : Nat) : Nat := rank * 8 + file

/-- Rank of a square in the external library encoding. -/
def squareRank (sq : Nat) : Nat := sq / 8

/-- File of a square in the external library encoding. -/
def squareFile (sq : Nat) : Nat := sq % 8

/-- `SquareFromRowCol` converts vision grid coordinates to a square:
`rank := 7 - row`, `file := col`. -/
def SquareFromRowCol (row col : Nat) : Nat :=
  NewSquare col (7 - row)

/-- `RowColFromSquare` converts a square back to vision grid coordinates:
`row = 7 - rank, col = file`. -/
def RowColFromSquare (sq : Nat) : Nat × Nat :=
  (7 - squareRank sq, squareFile sq)

/-! ### ReorderPoints (pkg/vision/processor.go) -/

/-- Accumulator of the `ReorderPoints` loop: the four tracked extrema and
the four current corner candidates, exactly the eight local variables of
the Go function. -/
structure ReorderAcc where
  minSum : Int
  maxSum : Int
  minDiff : Int
  maxDiff : Int
  tl : Point
  tr : Point
  br : Point
  bl : Point
deriving DecidableEq, Repr

/-- One iteration of the `ReorderPoints` loop body: four independent
conditional updates (strict comparisons, as in the source). -/
def reorderStep (acc : ReorderAcc) (p : Point) : ReorderAcc :=
  let sum := p.x + p.y
  let diff := p.y - p.x
  let acc1 := if sum < acc.minSum then { acc with minSum := sum, tl := p } else acc
  let acc2 := if sum > acc1.maxSum then { acc1 with maxSum := sum, br := p } else acc1
  let acc3 := if diff < acc2.minDiff then { acc2 with minDiff := diff, tr := p } else acc2
  if diff > acc3.maxDiff then { acc3 with maxDiff := diff, bl := p } else acc3

/-- Initialization of the eight loop locals of `ReorderPoints`: all four
extrema and corner candidates start at the first point. -/
def reorderInit (p0 : Point) : ReorderAcc :=
  ⟨p0.x + p0.y, p0.x + p0.y, p0.y - p0.x, p0.y - p0.x, p0, p0, p0, p0⟩

/-- `ReorderPoints` reorders four points into {TL, TR, BR, BL} order.
Inputs whose length is not 4 are returned unchanged; otherwise the loop
runs over the whole slice with strict-inequality updates. -/
def ReorderPoints (pts : List Point) : List Point :=
  if pts.length ≠ 4 then pts
  else
    let p0 := pts.headD ⟨0, 0⟩
    let acc := pts.foldl reorderStep (reorderInit p0)
    [acc.tl, acc.tr, acc.br, acc.bl]

/-- Generic strict-minimum selection fold: the (tracked value, candidate)
pair evolves like each of the four (extremum, corner) pairs of the loop. -/
def selLt (f : Point → Int) (acc : Int × Point) (l : List Point) : Int × Point :=
  l.foldl (fun acc p => if f p < acc.1 then (f p, p) else acc) acc

/-- Generic strict-maximum selection fold. -/
def selGt (f : Point → Int) (acc : Int × Point) (l : List Point) : Int × Point :=
  l.foldl (fun acc p => if f p > acc.1 then (f p, p) else acc) acc

/-- The sum of a point's coordinates. -/
def psum (p : Point) : Int := p.x + p.y

/-- The difference y - x of a point's coordinates. -/
def pdiff (p : Point) : Int := p.y - p.x

/-- A four-point input on which `ReorderPoints` is not idempotent: the
second and third points share the coordinate sum 4, so the second pass
re-selects the bottom-right corner differently. -/
def reorderCexPts : List Point := [⟨0, 0⟩, ⟨2, 2⟩, ⟨3, 1⟩, ⟨0, 1⟩]

/-- Four points with pairwise distinct sums and differences. -/
def reorderWitPts : List Point := [⟨0, 0⟩, ⟨10, 1⟩, ⟨12, 8⟩, ⟨1, 6⟩]

/-! ### BoardSmoother (pkg/vision/processor.go)

The smoother keeps the last accepted corners, an EMA factor `Alpha`, and a
counter of frames since the last successful detection.  Distances are
compared squared (see the header note on `math.Sqrt`); the Go `int(...)`
conversion in the lerp truncates toward zero, which on exact rationals is
`num / den` with `Int` division. -/

structure BoardSmoother where
  LastCorners : List Point
  Alpha : ℚ
  FramesSinceDetected : Nat
deriving DecidableEq

/-- Go `int(q)` truncation toward zero on an exact rational. -/
def truncQ (q : ℚ) : Int := q.num / (q.den : Int)

/-- One coordinate of the lerp `current + (target - current) * alpha`;
the difference is computed in integers, as in the source. -/
def lerpCoord (alpha : ℚ) (last next : Int) : Int :=
  truncQ ((last : ℚ) + ((next - last : Int) : ℚ) * alpha)

/-- The per-corner lerp of `Smooth`. -/
def lerpPoint (alpha : ℚ) (last next : Point) : Point :=
  ⟨lerpCoord alpha last.x next.x, lerpCoord alpha last.y next.y⟩

/-- `BoardSmoother.Smooth` from the source.  On a non-4-point candidate the
no-detection counter is bumped and after more than 30 such frames the
memory is cleared.  On a 4-point candidate the counter is reset to 0
(before the jump threshold is chosen — hence the `> 15` relaxation branch
below can never be taken), a first detection is accepted as reordered, and
otherwise each corner moving more than the jump threshold is frozen while
the others are lerped toward the candidate. -/
def Smooth (s : BoardSmoother) (newCorners : List Point) :
    BoardSmoother × List Point :=
  if newCorners.length ≠ 4 then
    let fsd := s.FramesSinceDetected + 1
    let last := if fsd > 30 then ([] : List Point) else s.LastCorners
    ({ s with FramesSinceDetected := fsd, LastCorners := last }, last)
  else
    let s1 := { s with FramesSinceDetected := 0 }
    if s1.LastCorners.length ≠ 4 then
      let lc := ReorderPoints newCorners
      ({ s1 with LastCorners := lc }, lc)
    else
      let sortedNew := ReorderPoints newCorners
      let maxJumpSq : Int := if s1.FramesSinceDetected > 15 then 150 ^ 2 else 50 ^ 2
      let smoothed := (List.range 4).map (fun i =>
        let lastc := s1.LastCorners.getD i ⟨0, 0⟩
        let newc := sortedNew.getD i ⟨0, 0⟩
        if distSq lastc newc > maxJumpSq then lastc
        else lerpPoint s1.Alpha lastc newc)
      ({ s1 with LastCorners := smoothed }, smoothed)

/-- Stored corners of the C5 failing input. -/
def relaxCorners : List Point := [⟨0, 0⟩, ⟨100, 0⟩, ⟨100, 100⟩, ⟨0, 100⟩]

/-- Candidate corners displaced (60, 80) - exactly 100px - from each stored
corner: beyond the base 50px jump threshold but within the relaxed 150px
threshold the spec promises after more than 15 undetected frames. -/
def relaxCand : List Point := [⟨60, 80⟩, ⟨160, 80⟩, ⟨160, 180⟩, ⟨60, 180⟩]

/-! ### DetectBoard (pkg/vision/processor.go)

Contour extraction and polygon approximation are `gocv` primitives, so a
contour reaches the embedded selection loop as its measured area together
with its polygon approximation (computed externally at 2% of the contour
perimeter; a nil approximation is the empty list). -/

structure Contour where
  area : ℚ
  approx : List Point
deriving DecidableEq

/-- The squareness check of `DetectBoard`: the source computes
`math.Abs(d1-d2)/d1 < 0.25` with `d1 = √a` the diagonal between vertices
0 and 2 and `d2 = √b` between vertices 1 and 3.  For `d1 > 0` this is
equivalent to `9a < 16b ∧ 16b < 25a`; the degenerate `d1 = 0` inputs
(Inf/NaN in Go float arithmetic) are rejected by both forms. -/
def diagOK (a b : Int) : Prop := 9 * a < 16 * b ∧ 16 * b < 25 * a

instance (a b : Int) : Decidable (diagOK a b) := by
  unfold diagOK; infer_instance

/-- The squareness check as claim C6 words it: the diagonals differ by
less than 25% of the LONGER diagonal, i.e. `|√a - √b| < max(√a,√b)/4`,
equivalently `9·max(a,b) < 16·min(a,b)`. -/
def diagSpecOK (a b : Int) : Prop := 9 * max a b < 16 * min a b

instance (a b : Int) : Decidable (diagSpecOK a b) := by
  unfold diagSpecOK; infer_instance

/-- The minimum area filter: 10% of the image area (`0.10` in the source). -/
def detectMinArea (rows cols : Nat) : ℚ := ((rows * cols : Nat) : ℚ) * (10 / 100)

/-- A contour passing all three acceptance filters of `DetectBoard`. -/
def acceptedContour (minArea : ℚ) (c : Contour) : Prop :=
  ¬ c.area < minArea ∧ c.approx.length = 4 ∧
  diagOK (distSq (c.approx.getD 0 ⟨0, 0⟩) (c.approx.getD 2 ⟨0, 0⟩))
         (distSq (c.approx.getD 1 ⟨0, 0⟩) (c.approx.getD 3 ⟨0, 0⟩))

instance (m : ℚ) (c : Contour) : Decidable (acceptedContour m c) := by
  unfold acceptedContour; infer_instance

/-- Acceptance as claim C6 words it (ratio to the longer diagonal). -/
def acceptedContourSpec (minArea : ℚ) (c : Contour) : Prop :=
  ¬ c.area < minArea ∧ c.approx.length = 4 ∧
  diagSpecOK (distSq (c.approx.getD 0 ⟨0, 0⟩) (c.approx.getD 2 ⟨0, 0⟩))
             (distSq (c.approx.getD 1 ⟨0, 0⟩) (c.approx.getD 3 ⟨0, 0⟩))

instance (m : ℚ) (c : Contour) : Decidable (acceptedContourSpec m c) := by
  unfold acceptedContourSpec; infer_instance

/-- One iteration of the `DetectBoard` contour loop: skip small contours,
demand a 4-vertex approximation, check the diagonals, keep the largest. -/
def detectStep (minArea : ℚ) (st : List Point × ℚ) (c : Contour) :
    List Point × ℚ :=
  if c.area < minArea then st
  else if c.approx.length = 4 then
    if diagOK (distSq (c.approx.getD 0 ⟨0, 0⟩) (c.approx.getD 2 ⟨0, 0⟩))
              (distSq (c.approx.getD 1 ⟨0, 0⟩) (c.approx.getD 3 ⟨0, 0⟩)) then
      if c.area > st.2 then (c.approx, c.area) else st
    else st
  else st

/-- `DetectBoard` over the extracted contours of an `rows x cols` edge
image: best quadrilateral so far starts nil with max area 0. -/
def DetectBoard (rows cols : Nat) (contours : List Contour) : List Point :=
  (contours.foldl (detectStep (detectMinArea rows cols)) ([], 0)).1

/-- A 4-vertex contour whose diagonals are 4 (vertices 0-2) and 5
(vertices 1-3): the ratio to the longer diagonal is 0.2 < 0.25, so claim
C6 as stated accepts it, but the source divides by `d1 = 4` giving
exactly 0.25, which is not `< 0.25`, so the code rejects it. -/
def diagCexContour : Contour := ⟨100, [⟨0, 0⟩, ⟨2, 2⟩, ⟨4, 0⟩, ⟨2, -3⟩]⟩

/-! ### Move inference (pkg/chess/board.go)

The legal-move generator / rules engine is the external `notnil/chess`
library; spec section 6 specifies it as a consumed interface: legal move
enumeration, position update, board contents, terminal outcome.  The
embedding therefore takes it as a structure of opaque functions and
translates the repository functions over it. -/

/-- Piece types of the external chess library (`chess.PieceType`); the
repository compares a move's promotion piece against `chess.Queen`. -/
inductive PieceType where
  | king
  | queen
  | rook
  | bishop
  | knight
  | pawn
  | noPieceType
deriving DecidableEq

/-- The external rules engine interface: legal moves of a position, the
position after a move, whether a square (0..63) holds a piece
(`board.Piece(sq) != chess.NoPiece`), a move's promotion piece, and the
terminal-outcome test (`game.Outcome() != chess.NoOutcome`). -/
structure Rules (Pos Mv : Type) where
  validMoves : Pos → List Mv
  update : Pos → Mv → Pos
  pieceAt : Pos → Nat → Bool
  promo : Mv → PieceType
  isOver : Pos → Bool

/-- `occupancyFromBoard`: loop over squares a1..h8 (0..63), marking the
vision grid cell of every occupied square. -/
def occupancyFromBoard {Pos Mv : Type} (R : Rules Pos Mv) (pos : Pos) : Grid :=
  (List.range 64).foldl (fun occ sq =>
    if R.pieceAt pos sq then
      setCell occ (RowColFromSquare sq).1 (RowColFromSquare sq).2 true
    else occ) emptyGrid

/-- `GameState.ExpectedOccupancy`: the same square loop, run on the
current position (the source duplicates the `occupancyFromBoard` body). -/
def ExpectedOccupancy {Pos Mv : Type} (R : Rules Pos Mv) (pos : Pos) : Grid :=
  occupancyFromBoard R pos

/-- The `matches` list of `InferMove`: legal moves whose simulated
resulting occupancy equals the observed grid. -/
def inferMatches {Pos Mv : Type} (R : Rules Pos Mv) (pos : Pos)
    (observed : Grid) : List Mv :=
  (R.validMoves pos).filter
    (fun m => decide (occupancyFromBoard R (R.update pos m) = observed))

/-- `GameState.InferMove`: no match is an error (`none`); a unique match
is returned; among several matches the first queen promotion is preferred,
otherwise the first match. -/
def InferMove {Pos Mv : Type} (R : Rules Pos Mv) (pos : Pos)
    (observed : Grid) : Option Mv :=
  let ms := inferMatches R pos observed
  if ms.length = 0 then none
  else if ms.length = 1 then ms.head?
  else
    match ms.find? (fun m => decide (R.promo m = PieceType.queen)) with
    | some m => some m
    | none => ms.head?

/-- `GameState.ApplyMove` delegates to the library's `game.Move`, which
validates the move against the legal moves of the current position and,
on success, updates the position; an illegal move is an error (`none`).
Modelled from the library interface. -/
def ApplyMove {Pos Mv : Type} [DecidableEq Mv] (R : Rules Pos Mv)
    (pos : Pos) (m : Mv) : Option Pos :=
  if m ∈ R.validMoves pos then some (R.update pos m) else none

/-- A tiny concrete instance of the rules interface: position 0 has two
legal moves 0 and 1 leading to positions 1 and 2, every position shows a
piece on square 0 only, and move 1 is a queen promotion. -/
def demoRules : Rules Nat Nat where
  validMoves := fun p => if p = 0 then [0, 1] else []
  update := fun p m => p + m + 1
  pieceAt := fun _ sq => decide (sq = 0)
  promo := fun m => if m = 1 then PieceType.queen else PieceType.pawn
  isOver := fun _ => false

/-- The observed grid of the demo instance: only a1 (vision row 7, col 0)
occupied. -/
def demoObserved : Grid := setCell emptyGrid 7 0 true

/-! ### Game state machine (cmd/app/main.go)

The frame loop's playing branch compares the scanned occupancy to the
position's expected occupancy and debounces mismatches; its locals
(`gameState`, `currentState`, `stableDiffCount`, `pendingOcc`,
`settling`, `settleStart`, `invalidMoveActive`) become a state record,
and one frame becomes a step function from state, observed grid and the
current time (milliseconds) to a new state plus the frame's observable
effects.  Purely visual/audio side effects (labels, sounds, engine
queries) mutate none of these locals and are omitted. -/

/-- `stabilityThreshold` from the source: consecutive identical
mismatching frames required before the settle period starts. -/
def stabilityThreshold : Nat := 5

/-- The settle period: 2 seconds, in milliseconds. -/
def settleDelay : Nat := 2000

/-- The app states (`statePreGame`, `statePlaying`, `stateGameOver`). -/
inductive AppState where
  | preGame
  | playing
  | gameOver
deriving DecidableEq

/-- The frame-loop state. -/
structure MachineState (Pos : Type) where
  phase : AppState
  pos : Pos
  stableDiffCount : Nat
  pendingOcc : Grid
  settling : Bool
  settleStart : Nat
  invalidMoveActive : Bool

/-- Observable effects of one frame: whether `InferMove` ran, the squares
flashed on the invalid-move path, the move applied (if any) and the
board-corrected notification. -/
structure FrameEvents (Mv : Type) where
  inferInvoked : Bool
  flashInvalid : Option (List (Nat × Nat))
  moveApplied : Option Mv
  boardCorrected : Bool

/-- `diffSquares` from the source: the (row, col) pairs, in row-major
order, where expected and observed occupancy differ (the nested
append loop written as flatMap/filterMap). -/
def diffSquares (expected observed : Grid) : List (Nat × Nat) :=
  (List.range 8).flatMap (fun r =>
    (List.range 8).filterMap (fun c =>
      if getCell expected r c ≠ getCell observed r c then some (r, c) else none))

/-- The debounce update on a mismatching frame: a frame equal to the
pending grid extends the streak, any other one restarts it at 1 (and
aborts a running settle period). -/
def pendingUpdate {Pos : Type} (s : MachineState Pos) (occ : Grid) :
    MachineState Pos :=
  if occ = s.pendingOcc
  then { s with stableDiffCount := s.stableDiffCount + 1 }
  else { s with pendingOcc := occ, stableDiffCount := 1, settling := false }

/-- Entering the settle period once the streak is long enough
(`!settling && stableDiffCount >= stabilityThreshold` in the source). -/
def settleCheck {Pos : Type} (s1 : MachineState Pos) (now : Nat) :
    MachineState Pos :=
  if ¬ s1.settling = true ∧ stabilityThreshold ≤ s1.stableDiffCount
  then { s1 with settling := true, settleStart := now }
  else s1

/-- One frame of the playing branch of the main loop. -/
def frameStep {Pos Mv : Type} [DecidableEq Mv] (R : Rules Pos Mv)
    (s : MachineState Pos) (occ : Grid) (now : Nat) :
    MachineState Pos × FrameEvents Mv :=
  if s.phase = AppState.playing then
    if occ ≠ ExpectedOccupancy R s.pos then
      -- occupancy differs from game state: potential move
      let s2 := settleCheck (pendingUpdate s occ) now
      -- after the settle period, infer the move; on both outcomes the
      -- counter is reset and settling ends (the position is untouched up
      -- to this point, so inference reads the current position)
      if s2.settling = true ∧ settleDelay ≤ now - s2.settleStart then
        match InferMove R s.pos occ with
        | none =>
            ({ s2 with
                settling := false
                invalidMoveActive := true
                stableDiffCount := 0 },
             ⟨true, some (diffSquares (ExpectedOccupancy R s.pos) occ), none, false⟩)
        | some m =>
            match ApplyMove R s.pos m with
            | none =>
                -- rules engine rejected the inferred move: log only
                ({ s2 with
                    settling := false
                    invalidMoveActive := false
                    stableDiffCount := 0 },
                 ⟨true, none, none, false⟩)
            | some pos2 =>
                ({ s2 with
                    settling := false
                    invalidMoveActive := false
                    pos := pos2
                    phase := (if R.isOver pos2 then AppState.gameOver
                      else AppState.playing)
                    stableDiffCount := 0 },
                 ⟨true, none, some m, false⟩)
      else (s2, ⟨false, none, none, false⟩)
    else
      -- occupancy matches expected: reset, clear the invalid flag
      ({ s with
          stableDiffCount := 0
          settling := false
          invalidMoveActive := false },
       ⟨false, none, none, s.invalidMoveActive⟩)
  else (s, ⟨false, none, none, false⟩)

/-- The machine state after `n` frames of the input stream `f` (each
frame carries the observed occupancy and the frame time in ms). -/
def states {Pos Mv : Type} [DecidableEq Mv] (R : Rules Pos Mv)
    (s0 : MachineState Pos) (f : Nat → Grid × Nat) : Nat → MachineState Pos
  | 0 => s0
  | n + 1 =>
      (frameStep R (states R s0 f n) (f n).1 (f n).2).1

/-- Whether frame `n` of the stream invokes `InferMove`. -/
def invokedAt {Pos Mv : Type} [DecidableEq Mv] (R : Rules Pos Mv)
    (s0 : MachineState Pos) (f : Nat → Grid × Nat) (n : Nat) : Bool :=
  (frameStep R (states R s0 f n) (f n).1 (f n).2).2.inferInvoked

/-- Invariant of the reachable frame-loop states: (a) a positive streak
counter means the game is on, the last `stableDiffCount` frames all showed
the pending grid and the pending grid mismatches the expected one; (b)
outside the settle period the counter is at most 4; (c) during the settle
period there is a unique entry frame `j` at which the counter stood at
exactly 4 (so the streak reached exactly `stabilityThreshold` there), the
settle timer reads frame `j`'s time, and every frame since `j - 4` showed
the pending grid. -/
def DebounceInv {Pos Mv : Type} [DecidableEq Mv] (R : Rules Pos Mv)
    (s0 : MachineState Pos) (f : Nat → Grid × Nat) (n : Nat) : Prop :=
  (1 ≤ (states R s0 f n).stableDiffCount →
    (states R s0 f n).phase = AppState.playing ∧
    (states R s0 f n).stableDiffCount ≤ n ∧
    (states R s0 f n).pendingOcc ≠
      ExpectedOccupancy R (states R s0 f n).pos ∧
    (∀ i, n - (states R s0 f n).stableDiffCount ≤ i → i < n →
      (f i).1 = (states R s0 f n).pendingOcc)) ∧
  ((states R s0 f n).settling = false →
    (states R s0 f n).stableDiffCount ≤ 4) ∧
  ((states R s0 f n).settling = true →
    (states R s0 f n).phase = AppState.playing ∧
    (states R s0 f n).pendingOcc ≠
      ExpectedOccupancy R (states R s0 f n).pos ∧
    ∃ j, j < n ∧ 4 ≤ j ∧
      (states R s0 f n).settleStart = (f j).2 ∧
      (states R s0 f j).settling = false ∧
      (states R s0 f j).stableDiffCount = 4 ∧
      (states R s0 f (j + 1)).settling = true ∧
      (∀ i, j - 4 ≤ i → i < n →
        (f i).1 = (states R s0 f n).pendingOcc))

/-- The state the Start button establishes: Playing, counter 0, not
settling, no invalid flag, pending grid at its zero value. -/
def startState : MachineState Nat :=
  ⟨AppState.playing, 0, 0, emptyGrid, false, 0, false⟩

/-- Frame stream for the C2 counterexample: five identical mismatching
frames (all squares empty) at 2-second intervals, then a frame matching
the expected occupancy of the demo instance. -/
def cexTrace : Nat → Grid × Nat := fun n =>
  if n ≤ 4 then (emptyGrid, 2000 * n) else (demoObserved, 2000 * n)

/-- Frame stream for the C2 witness: the all-empty grid on every frame,
at 2-second intervals. -/
def witTrace : Nat → Grid × Nat := fun n => (emptyGrid, 2000 * n)

/-- A settling state of the demo instance whose pending grid matches no
legal move: position 0 with the all-empty observed grid. -/
def invalidWitState : MachineState Nat :=
  ⟨AppState.playing, 0, 5, emptyGrid, true, 0, false⟩

/-! ### Reference-free occupancy scanning (pkg/vision/squares.go)

`ScanBoardAbsolute` measures, per square, the greyscale standard
deviation of the CLAHE-normalised image and the percentage of Canny edge
pixels (all via `gocv` primitives, entering here as inputs), and marks a
square occupied by a three-way threshold test.  Each loop iteration
writes its own cell exactly once, to the truth value of that test, so the
loop is embedded cell-wise over the 8x8 ranges. -/

/-- Minimum greyscale stddev to consider a square occupied. -/
def absVarianceThreshold : ℚ := 20

/-- Minimum edge-pixel percentage to consider a square occupied. -/
def absEdgeThreshold : ℚ := 6

/-- Lower joint stddev minimum of the combined test. -/
def absCombinedVarMin : ℚ := 16

/-- Lower joint edge-percentage minimum of the combined test. -/
def absCombinedEdgeMin : ℚ := 3

/-- `ScanBoardAbsolute`: a square is occupied if its stddev exceeds the
variance threshold, OR its edge percentage exceeds the edge threshold,
OR both exceed the lower joint minima. -/
def ScanBoardAbsolute (sd edgePct : Nat → Nat → ℚ) : Grid :=
  (List.range 8).map (fun row =>
    (List.range 8).map (fun col =>
      decide (sd row col > absVarianceThreshold ∨
        edgePct row col > absEdgeThreshold ∨
        (sd row col > absCombinedVarMin ∧
          edgePct row col > absCombinedEdgeMin))))

/-- Stddev input of the C7 witness: 25 on a1-corner square (0,0), 17 on
square (1,1), 0 elsewhere. -/
def scanWitSd : Nat → Nat → ℚ := fun r c =>
  if r = 0 ∧ c = 0 then 25 else if r = 1 ∧ c = 1 then 17 else 0

/-- Edge-percentage input of the C7 witness: 4 on square (1,1), 0
elsewhere. -/
def scanWitEdge : Nat → Nat → ℚ := fun r c =>
  if r = 1 ∧ c = 1 then 4 else 0

/-- Claim C9: the coordinate maps are mutually inverse bijections between
rows/cols in 0..7 and squares a1..h8 (0..63). -/
theorem rowcol_square_roundtrip :
    (∀ row : Nat, row < 8 → ∀ col : Nat, col < 8 →
      RowColFromSquare (SquareFromRowCol row col) = (row, col)) ∧
    (∀ sq : Nat, sq < 64 →
      SquareFromRowCol (RowColFromSquare sq).1 (RowColFromSquare sq).2 = sq) := by
  constructor
  · decide
  · decide

/-- Witness for C9 at the concrete squares e2 (row 6, col 4) and d4. -/
theorem rowcol_square_roundtrip_witness :
    RowColFromSquare (SquareFromRowCol 6 4) = (6, 4) ∧
    SquareFromRowCol (RowColFromSquare 27).1 (RowColFromSquare 27).2 = 27 :=
  ⟨rowcol_square_roundtrip.1 6 (by decide) 4 (by decide),
   rowcol_square_roundtrip.2 27 (by decide)⟩

lemma selLt_cons (f : Point → Int) (v : Int) (c p : Point) (l : List Point) :
    selLt f (v, c) (p :: l) = selLt f (if f p < v then (f p, p) else (v, c)) l := rfl

lemma selGt_cons (f : Point → Int) (v : Int) (c p : Point) (l : List Point) :
    selGt f (v, c) (p :: l) = selGt f (if f p > v then (f p, p) else (v, c)) l := rfl

lemma reorderFold_minSum_tl (l : List Point) (a : ReorderAcc) :
    ((l.foldl reorderStep a).minSum, (l.foldl reorderStep a).tl) =
      selLt psum (a.minSum, a.tl) l := by
  induction l generalizing a with
  | nil => rfl
  | cons p l ih =>
      rw [List.foldl_cons, ih, selLt_cons]
      have hstep : ((reorderStep a p).minSum, (reorderStep a p).tl) =
          if psum p < a.minSum then (psum p, p) else (a.minSum, a.tl) := by
        simp only [reorderStep, psum, pdiff]
        split_ifs <;> rfl
      rw [hstep]

lemma reorderFold_maxSum_br (l : List Point) (a : ReorderAcc) :
    ((l.foldl reorderStep a).maxSum, (l.foldl reorderStep a).br) =
      selGt psum (a.maxSum, a.br) l := by
  induction l generalizing a with
  | nil => rfl
  | cons p l ih =>
      rw [List.foldl_cons, ih, selGt_cons]
      have hstep : ((reorderStep a p).maxSum, (reorderStep a p).br) =
          if psum p > a.maxSum then (psum p, p) else (a.maxSum, a.br) := by
        simp only [reorderStep, psum, pdiff]
        split_ifs <;> rfl
      rw [hstep]

lemma reorderFold_minDiff_tr (l : List Point) (a : ReorderAcc) :
    ((l.foldl reorderStep a).minDiff, (l.foldl reorderStep a).tr) =
      selLt pdiff (a.minDiff, a.tr) l := by
  induction l generalizing a with
  | nil => rfl
  | cons p l ih =>
      rw [List.foldl_cons, ih, selLt_cons]
      have hstep : ((reorderStep a p).minDiff, (reorderStep a p).tr) =
          if pdiff p < a.minDiff then (pdiff p, p) else (a.minDiff, a.tr) := by
        simp only [reorderStep, psum, pdiff]
        split_ifs <;> rfl
      rw [hstep]

lemma reorderFold_maxDiff_bl (l : List Point) (a : ReorderAcc) :
    ((l.foldl reorderStep a).maxDiff, (l.foldl reorderStep a).bl) =
      selGt pdiff (a.maxDiff, a.bl) l := by
  induction l generalizing a with
  | nil => rfl
  | cons p l ih =>
      rw [List.foldl_cons, ih, selGt_cons]
      have hstep : ((reorderStep a p).maxDiff, (reorderStep a p).bl) =
          if pdiff p > a.maxDiff then (pdiff p, p) else (a.maxDiff, a.bl) := by
        simp only [reorderStep, psum, pdiff]
        split_ifs <;> rfl
      rw [hstep]

lemma selLt_spec (f : Point → Int) (l : List Point) (v : Int) (p : Point)
    (hv : v = f p) :
    (selLt f (v, p) l).1 = f (selLt f (v, p) l).2 ∧
    ((selLt f (v, p) l).2 = p ∨ (selLt f (v, p) l).2 ∈ l) ∧
    (selLt f (v, p) l).1 ≤ f p ∧
    ∀ q ∈ l, (selLt f (v, p) l).1 ≤ f q := by
  induction l generalizing v p with
  | nil => refine ⟨hv, Or.inl rfl, le_of_eq hv, by simp⟩
  | cons q l ih =>
      rw [selLt_cons]
      by_cases h : f q < v
      · rw [if_pos h]
        obtain ⟨h1, h2, h3, h4⟩ := ih (f q) q rfl
        refine ⟨h1, ?_, le_trans h3 (le_of_lt (hv ▸ h)), ?_⟩
        · rcases h2 with h2 | h2
          · exact Or.inr (by rw [h2]; exact List.mem_cons_self _ _)
          · exact Or.inr (List.mem_cons_of_mem _ h2)
        · intro r hr
          rcases List.mem_cons.mp hr with hr | hr
          · exact hr ▸ h3
          · exact h4 r hr
      · rw [if_neg h]
        obtain ⟨h1, h2, h3, h4⟩ := ih v p hv
        refine ⟨h1, ?_, h3, ?_⟩
        · rcases h2 with h2 | h2
          · exact Or.inl h2
          · exact Or.inr (List.mem_cons_of_mem _ h2)
        · intro r hr
          rcases List.mem_cons.mp hr with hr | hr
          · exact hr ▸ le_trans h3 (hv ▸ le_of_not_lt h)
          · exact h4 r hr

lemma selGt_spec (f : Point → Int) (l : List Point) (v : Int) (p : Point)
    (hv : v = f p) :
    (selGt f (v, p) l).1 = f (selGt f (v, p) l).2 ∧
    ((selGt f (v, p) l).2 = p ∨ (selGt f (v, p) l).2 ∈ l) ∧
    f p ≤ (selGt f (v, p) l).1 ∧
    ∀ q ∈ l, f q ≤ (selGt f (v, p) l).1 := by
  induction l generalizing v p with
  | nil => refine ⟨hv, Or.inl rfl, ge_of_eq hv, by simp⟩
  | cons q l ih =>
      rw [selGt_cons]
      by_cases h : f q > v
      · rw [if_pos h]
        obtain ⟨h1, h2, h3, h4⟩ := ih (f q) q rfl
        refine ⟨h1, ?_, le_trans (le_of_lt (hv ▸ h)) h3, ?_⟩
        · rcases h2 with h2 | h2
          · exact Or.inr (by rw [h2]; exact List.mem_cons_self _ _)
          · exact Or.inr (List.mem_cons_of_mem _ h2)
        · intro r hr
          rcases List.mem_cons.mp hr with hr | hr
          · exact hr ▸ h3
          · exact h4 r hr
      · rw [if_neg h]
        obtain ⟨h1, h2, h3, h4⟩ := ih v p hv
        refine ⟨h1, ?_, h3, ?_⟩
        · rcases h2 with h2 | h2
          · exact Or.inl h2
          · exact Or.inr (List.mem_cons_of_mem _ h2)
        · intro r hr
          rcases List.mem_cons.mp hr with hr | hr
          · exact hr ▸ le_trans (hv ▸ le_of_not_lt h) h3
          · exact h4 r hr

lemma selLt_reaches (f : Point → Int) (l : List Point) (v : Int) (p m : Point)
    (hv : v = f p) (hm : p = m ∨ m ∈ l)
    (hmin : ∀ q, (q = p ∨ q ∈ l) → q ≠ m → f m < f q) :
    selLt f (v, p) l = (f m, m) := by
  induction l generalizing v p with
  | nil =>
      rcases hm with hm | hm
      · subst hm; exact Prod.ext hv rfl
      · exact absurd hm (List.not_mem_nil m)
  | cons q l ih =>
      rw [selLt_cons]
      have hnext : ∀ r, (r = (if f q < v then q else p) ∨ r ∈ l) → r ≠ m → f m < f r := by
        intro r hr hrm
        rcases hr with hr | hr
        · by_cases hc : f q < v
          · rw [if_pos hc] at hr
            exact hmin r (Or.inr (hr ▸ List.mem_cons_self _ _)) hrm
          · rw [if_neg hc] at hr
            exact hmin r (Or.inl hr) hrm
        · exact hmin r (Or.inr (List.mem_cons_of_mem _ hr)) hrm
      have hmem : (if f q < v then q else p) = m ∨ m ∈ l := by
        rcases hm with hm | hm
        · -- p = m: the head never improves on m strictly, so p survives
          subst hm
          by_cases hq : q = p
          · subst hq
            simp [hv, lt_irrefl]
          · have := hmin q (Or.inr (List.mem_cons_self _ _)) hq
            rw [if_neg (by rw [hv]; exact not_lt_of_gt this)]
            exact Or.inl rfl
        · rcases List.mem_cons.mp hm with hm | hm
          · -- m = q is the head
            subst hm
            by_cases hp : p = m
            · subst hp; simp [hv, lt_irrefl]
            · have := hmin p (Or.inl rfl) hp
              rw [if_pos (by rw [hv]; exact this)]
              exact Or.inl rfl
          · exact Or.inr hm
      by_cases hc : f q < v
      · rw [if_pos hc]
        have := ih (f q) q rfl (by simpa [hc] using hmem) (by simpa [hc] using hnext)
        exact this
      · rw [if_neg hc]
        exact ih v p hv (by simpa [hc] using hmem) (by simpa [hc] using hnext)

lemma selGt_reaches (f : Point → Int) (l : List Point) (v : Int) (p m : Point)
    (hv : v = f p) (hm : p = m ∨ m ∈ l)
    (hmax : ∀ q, (q = p ∨ q ∈ l) → q ≠ m → f q < f m) :
    selGt f (v, p) l = (f m, m) := by
  induction l generalizing v p with
  | nil =>
      rcases hm with hm | hm
      · subst hm; exact Prod.ext hv rfl
      · exact absurd hm (List.not_mem_nil m)
  | cons q l ih =>
      rw [selGt_cons]
      have hnext : ∀ r, (r = (if f q > v then q else p) ∨ r ∈ l) → r ≠ m → f r < f m := by
        intro r hr hrm
        rcases hr with hr | hr
        · by_cases hc : f q > v
          · rw [if_pos hc] at hr
            exact hmax r (Or.inr (hr ▸ List.mem_cons_self _ _)) hrm
          · rw [if_neg hc] at hr
            exact hmax r (Or.inl hr) hrm
        · exact hmax r (Or.inr (List.mem_cons_of_mem _ hr)) hrm
      have hmem : (if f q > v then q else p) = m ∨ m ∈ l := by
        rcases hm with hm | hm
        · subst hm
          by_cases hq : q = p
          · subst hq
            simp [hv, lt_irrefl]
          · have := hmax q (Or.inr (List.mem_cons_self _ _)) hq
            rw [if_neg (by rw [hv]; exact not_lt_of_gt this)]
            exact Or.inl rfl
        · rcases List.mem_cons.mp hm with hm | hm
          · subst hm
            by_cases hp : p = m
            · subst hp; simp [hv, lt_irrefl]
            · have := hmax p (Or.inl rfl) hp
              rw [if_pos (by rw [hv]; exact this)]
              exact Or.inl rfl
          · exact Or.inr hm
      by_cases hc : f q > v
      · rw [if_pos hc]
        exact ih (f q) q rfl (by simpa [hc] using hmem) (by simpa [hc] using hnext)
      · rw [if_neg hc]
        exact ih v p hv (by simpa [hc] using hmem) (by simpa [hc] using hnext)

lemma headD_mem_of_length_pos {l : List Point} (d : Point) (h : 0 < l.length) :
    l.headD d ∈ l := by
  cases l with
  | nil => simp at h
  | cons a t => simp [List.headD]

lemma pairwise_fun_ne {f : Point → Int} {l : List Point}
    (h : l.Pairwise (fun p q => f p ≠ f q)) :
    ∀ a ∈ l, ∀ b ∈ l, a ≠ b → f a ≠ f b := by
  intro a ha b hb hab
  exact List.Pairwise.forall (fun x y hxy => Ne.symm hxy) h ha hb hab

/-- Counterexample for claim C8 as stated: `ReorderPoints` is not
idempotent on every 4-point input. -/
theorem reorder_not_idempotent_cex :
    reorderCexPts.length = 4 ∧
    ReorderPoints (ReorderPoints reorderCexPts) ≠ ReorderPoints reorderCexPts := by
  decide

/-- Claim C8 (amended): for every 4-point input the output {TL, TR, BR, BL}
realises the sum/difference extrema (TL minimal and BR maximal in x+y over
the input and hence over every output point, TR minimal and BL maximal in
y-x), and `ReorderPoints` is idempotent whenever the input points have
pairwise distinct coordinate sums x+y and pairwise distinct differences
y-x (without that restriction idempotence fails, see the counterexample). -/
theorem reorder_points_amended (pts : List Point) (hlen : pts.length = 4) :
    (∃ tl tr br bl,
      ReorderPoints pts = [tl, tr, br, bl] ∧
      tl ∈ pts ∧ tr ∈ pts ∧ br ∈ pts ∧ bl ∈ pts ∧
      (∀ q ∈ ReorderPoints pts, psum tl ≤ psum q ∧ psum q ≤ psum br ∧
          pdiff tr ≤ pdiff q ∧ pdiff q ≤ pdiff bl) ∧
      (∀ q ∈ pts, psum tl ≤ psum q ∧ psum q ≤ psum br ∧
          pdiff tr ≤ pdiff q ∧ pdiff q ≤ pdiff bl)) ∧
    ((List.Pairwise (fun p q => psum p ≠ psum q) pts ∧
       List.Pairwise (fun p q => pdiff p ≠ pdiff q) pts) →
      ReorderPoints (ReorderPoints pts) = ReorderPoints pts) := by
  have hne : ¬ (pts.length ≠ 4) := by simp [hlen]
  have hp0mem : pts.headD ⟨0, 0⟩ ∈ pts := headD_mem_of_length_pos _ (by omega)
  have hout : ReorderPoints pts =
      [(pts.foldl reorderStep (reorderInit (pts.headD ⟨0, 0⟩))).tl,
       (pts.foldl reorderStep (reorderInit (pts.headD ⟨0, 0⟩))).tr,
       (pts.foldl reorderStep (reorderInit (pts.headD ⟨0, 0⟩))).br,
       (pts.foldl reorderStep (reorderInit (pts.headD ⟨0, 0⟩))).bl] := by
    rw [ReorderPoints, if_neg hne]
  set p0 := pts.headD (⟨0, 0⟩ : Point) with hp0def
  set acc := pts.foldl reorderStep (reorderInit p0) with haccdef
  have hinit1 : (reorderInit p0).minSum = psum p0 := rfl
  have hinit2 : (reorderInit p0).tl = p0 := rfl
  -- characterise the four corners via the generic selection folds
  have htlp : (acc.minSum, acc.tl) = selLt psum (psum p0, p0) pts := by
    rw [haccdef, reorderFold_minSum_tl, hinit1, hinit2]
  have hbrp : (acc.maxSum, acc.br) = selGt psum (psum p0, p0) pts := by
    rw [haccdef, reorderFold_maxSum_br]; rfl
  have htrp : (acc.minDiff, acc.tr) = selLt pdiff (pdiff p0, p0) pts := by
    rw [haccdef, reorderFold_minDiff_tr]; rfl
  have hblp : (acc.maxDiff, acc.bl) = selGt pdiff (pdiff p0, p0) pts := by
    rw [haccdef, reorderFold_maxDiff_bl]; rfl
  obtain ⟨a1, a2, a3, a4⟩ := selLt_spec psum pts (psum p0) p0 rfl
  obtain ⟨b1, b2, b3, b4⟩ := selGt_spec psum pts (psum p0) p0 rfl
  obtain ⟨c1, c2, c3, c4⟩ := selLt_spec pdiff pts (pdiff p0) p0 rfl
  obtain ⟨d1, d2, d3, d4⟩ := selGt_spec pdiff pts (pdiff p0) p0 rfl
  have htl2 : acc.tl = (selLt psum (psum p0, p0) pts).2 := congrArg Prod.snd htlp
  have hbr2 : acc.br = (selGt psum (psum p0, p0) pts).2 := congrArg Prod.snd hbrp
  have htr2 : acc.tr = (selLt pdiff (pdiff p0, p0) pts).2 := congrArg Prod.snd htrp
  have hbl2 : acc.bl = (selGt pdiff (pdiff p0, p0) pts).2 := congrArg Prod.snd hblp
  have htlmem : acc.tl ∈ pts := by
    rw [htl2]; rcases a2 with h | h
    · rw [h]; exact hp0mem
    · exact h
  have hbrmem : acc.br ∈ pts := by
    rw [hbr2]; rcases b2 with h | h
    · rw [h]; exact hp0mem
    · exact h
  have htrmem : acc.tr ∈ pts := by
    rw [htr2]; rcases c2 with h | h
    · rw [h]; exact hp0mem
    · exact h
  have hblmem : acc.bl ∈ pts := by
    rw [hbl2]; rcases d2 with h | h
    · rw [h]; exact hp0mem
    · exact h
  have htlmin : ∀ q ∈ pts, psum acc.tl ≤ psum q := by
    intro q hq
    have := a4 q hq
    rw [a1] at this
    rwa [← htl2] at this
  have hbrmax : ∀ q ∈ pts, psum q ≤ psum acc.br := by
    intro q hq
    have := b4 q hq
    rw [b1] at this
    rwa [← hbr2] at this
  have htrmin : ∀ q ∈ pts, pdiff acc.tr ≤ pdiff q := by
    intro q hq
    have := c4 q hq
    rw [c1] at this
    rwa [← htr2] at this
  have hblmax : ∀ q ∈ pts, pdiff q ≤ pdiff acc.bl := by
    intro q hq
    have := d4 q hq
    rw [d1] at this
    rwa [← hbl2] at this
  have hallpts : ∀ q ∈ pts,
      psum acc.tl ≤ psum q ∧ psum q ≤ psum acc.br ∧
      pdiff acc.tr ≤ pdiff q ∧ pdiff q ≤ pdiff acc.bl := by
    intro q hq
    exact ⟨htlmin q hq, hbrmax q hq, htrmin q hq, hblmax q hq⟩
  refine ⟨⟨acc.tl, acc.tr, acc.br, acc.bl, hout, htlmem, htrmem, hbrmem, hblmem, ?_, hallpts⟩, ?_⟩
  · intro q hq
    rw [hout] at hq
    simp only [List.mem_cons, List.not_mem_nil, or_false] at hq
    rcases hq with h | h | h | h <;> rw [h]
    · exact hallpts _ htlmem
    · exact hallpts _ htrmem
    · exact hallpts _ hbrmem
    · exact hallpts _ hblmem
  · rintro ⟨hps, hpd⟩
    have hsne := pairwise_fun_ne hps
    have hdne := pairwise_fun_ne hpd
    rw [hout]
    have hne2 : ¬ (([acc.tl, acc.tr, acc.br, acc.bl] : List Point).length ≠ 4) := by simp
    rw [ReorderPoints, if_neg hne2]
    have houtmem : ∀ q ∈ ([acc.tl, acc.tr, acc.br, acc.bl] : List Point), q ∈ pts := by
      intro q hq
      simp only [List.mem_cons, List.not_mem_nil, or_false] at hq
      rcases hq with h | h | h | h <;> rw [h]
      · exact htlmem
      · exact htrmem
      · exact hbrmem
      · exact hblmem
    have hminstrict : ∀ q, (q = acc.tl ∨ q ∈ ([acc.tl, acc.tr, acc.br, acc.bl] : List Point)) →
        q ≠ acc.tl → psum acc.tl < psum q := by
      intro q hq hqne
      have hqpts : q ∈ pts := by
        rcases hq with h | h
        · exact absurd h hqne
        · exact houtmem q h
      exact lt_of_le_of_ne (htlmin q hqpts) (hsne _ htlmem _ hqpts (Ne.symm hqne))
    have hmaxstrict : ∀ q, (q = acc.tl ∨ q ∈ ([acc.tl, acc.tr, acc.br, acc.bl] : List Point)) →
        q ≠ acc.br → psum q < psum acc.br := by
      intro q hq hqne
      have hqpts : q ∈ pts := by
        rcases hq with h | h
        · rw [h]; exact htlmem
        · exact houtmem q h
      exact lt_of_le_of_ne (hbrmax q hqpts) (hsne _ hqpts _ hbrmem hqne)
    have hdminstrict : ∀ q, (q = acc.tl ∨ q ∈ ([acc.tl, acc.tr, acc.br, acc.bl] : List Point)) →
        q ≠ acc.tr → pdiff acc.tr < pdiff q := by
      intro q hq hqne
      have hqpts : q ∈ pts := by
        rcases hq with h | h
        · rw [h]; exact htlmem
        · exact houtmem q h
      exact lt_of_le_of_ne (htrmin q hqpts) (hdne _ htrmem _ hqpts (Ne.symm hqne))
    have hdmaxstrict : ∀ q, (q = acc.tl ∨ q ∈ ([acc.tl, acc.tr, acc.br, acc.bl] : List Point)) →
        q ≠ acc.bl → pdiff q < pdiff acc.bl := by
      intro q hq hqne
      have hqpts : q ∈ pts := by
        rcases hq with h | h
        · rw [h]; exact htlmem
        · exact houtmem q h
      exact lt_of_le_of_ne (hblmax q hqpts) (hdne _ hqpts _ hblmem hqne)
    have r1 : selLt psum (psum acc.tl, acc.tl) [acc.tl, acc.tr, acc.br, acc.bl] =
        (psum acc.tl, acc.tl) :=
      selLt_reaches psum _ _ acc.tl acc.tl rfl (Or.inl rfl) hminstrict
    have r2 : selGt psum (psum acc.tl, acc.tl) [acc.tl, acc.tr, acc.br, acc.bl] =
        (psum acc.br, acc.br) :=
      selGt_reaches psum _ _ acc.tl acc.br rfl (Or.inr (by simp)) hmaxstrict
    have r3 : selLt pdiff (pdiff acc.tl, acc.tl) [acc.tl, acc.tr, acc.br, acc.bl] =
        (pdiff acc.tr, acc.tr) :=
      selLt_reaches pdiff _ _ acc.tl acc.tr rfl (Or.inr (by simp)) hdminstrict
    have r4 : selGt pdiff (pdiff acc.tl, acc.tl) [acc.tl, acc.tr, acc.br, acc.bl] =
        (pdiff acc.bl, acc.bl) :=
      selGt_reaches pdiff _ _ acc.tl acc.bl rfl (Or.inr (by simp)) hdmaxstrict
    have s1 : (([acc.tl, acc.tr, acc.br, acc.bl].foldl reorderStep (reorderInit acc.tl)).minSum,
        ([acc.tl, acc.tr, acc.br, acc.bl].foldl reorderStep (reorderInit acc.tl)).tl) =
        (psum acc.tl, acc.tl) := by
      rw [reorderFold_minSum_tl]; exact r1
    have s2 : (([acc.tl, acc.tr, acc.br, acc.bl].foldl reorderStep (reorderInit acc.tl)).maxSum,
        ([acc.tl, acc.tr, acc.br, acc.bl].foldl reorderStep (reorderInit acc.tl)).br) =
        (psum acc.br, acc.br) := by
      rw [reorderFold_maxSum_br]; exact r2
    have s3 : (([acc.tl, acc.tr, acc.br, acc.bl].foldl reorderStep (reorderInit acc.tl)).minDiff,
        ([acc.tl, acc.tr, acc.br, acc.bl].foldl reorderStep (reorderInit acc.tl)).tr) =
        (pdiff acc.tr, acc.tr) := by
      rw [reorderFold_minDiff_tr]; exact r3
    have s4 : (([acc.tl, acc.tr, acc.br, acc.bl].foldl reorderStep (reorderInit acc.tl)).maxDiff,
        ([acc.tl, acc.tr, acc.br, acc.bl].foldl reorderStep (reorderInit acc.tl)).bl) =
        (pdiff acc.bl, acc.bl) := by
      rw [reorderFold_maxDiff_bl]; exact r4
    have t1 := congrArg Prod.snd s1
    have t2 := congrArg Prod.snd s2
    have t3 := congrArg Prod.snd s3
    have t4 := congrArg Prod.snd s4
    simp only at t1 t2 t3 t4
    show [([acc.tl, acc.tr, acc.br, acc.bl].foldl reorderStep (reorderInit acc.tl)).tl,
          ([acc.tl, acc.tr, acc.br, acc.bl].foldl reorderStep (reorderInit acc.tl)).tr,
          ([acc.tl, acc.tr, acc.br, acc.bl].foldl reorderStep (reorderInit acc.tl)).br,
          ([acc.tl, acc.tr, acc.br, acc.bl].foldl reorderStep (reorderInit acc.tl)).bl] =
        [acc.tl, acc.tr, acc.br, acc.bl]
    rw [t1, t2, t3, t4]

/-- Witness for the amended C8 theorem at a concrete 4-point input. -/
theorem reorder_points_amended_witness :
    reorderWitPts.length = 4 ∧
    ReorderPoints (ReorderPoints reorderWitPts) = ReorderPoints reorderWitPts :=
  ⟨by decide,
   (reorder_points_amended reorderWitPts (by decide)).2 ⟨by decide, by decide⟩⟩

/-- Claim C10: with no stored corners (fresh smoother or after a reset),
the first 4-point candidate is accepted unconditionally: stored and
returned exactly as reordered, with no jump-threshold rejection and no
EMA blending, whatever the candidate's coordinates are. -/
theorem smoother_first_detection_accepts (s : BoardSmoother) (cand : List Point)
    (hc : cand.length = 4) (hl : s.LastCorners.length ≠ 4) :
    Smooth s cand =
      ({ s with FramesSinceDetected := 0, LastCorners := ReorderPoints cand },
       ReorderPoints cand) := by
  rw [Smooth, if_neg (by simp [hc]), if_pos hl]

/-- Witness for C10: a fresh smoother accepts an arbitrary far-away
candidate verbatim (reordered). -/
theorem smoother_first_detection_accepts_witness :
    Smooth ⟨[], 3/10, 7⟩ [⟨900, 900⟩, ⟨1000, 900⟩, ⟨1000, 1000⟩, ⟨900, 1000⟩] =
      (⟨ReorderPoints [⟨900, 900⟩, ⟨1000, 900⟩, ⟨1000, 1000⟩, ⟨900, 1000⟩], 3/10, 0⟩,
       ReorderPoints [⟨900, 900⟩, ⟨1000, 900⟩, ⟨1000, 1000⟩, ⟨900, 1000⟩]) :=
  smoother_first_detection_accepts ⟨[], 3/10, 7⟩ _ (by decide) (by decide)

/-- Claim C5 is the intended behaviour (the source comment says the jump
threshold relaxes after 15 undetected frames) but the code resets
`FramesSinceDetected` to 0 before choosing the threshold, so the relaxed
threshold is unreachable: after 16 undetected frames a candidate 100px
away is frozen at the old corners instead of being accepted.  The second
half of the claim (memory cleared after more than 30 undetected frames)
does hold, evaluated here on the 31st undetected frame. -/
theorem smoother_relaxation_unreachable_eval :
    (Smooth ⟨relaxCorners, 3/10, 16⟩ relaxCand).2 = relaxCorners ∧
    (Smooth ⟨relaxCorners, 3/10, 16⟩ relaxCand).1.LastCorners = relaxCorners ∧
    (∀ i, i < 4 →
      distSq (relaxCorners.getD i ⟨0, 0⟩) (relaxCand.getD i ⟨0, 0⟩) = 10000) ∧
    (Smooth ⟨relaxCorners, 3/10, 30⟩ []).1.LastCorners = [] := by
  decide

lemma detectStep_cases (minArea : ℚ) (st : List Point × ℚ) (c : Contour) :
    (detectStep minArea st c = st ∧ (acceptedContour minArea c → c.area ≤ st.2)) ∨
    (acceptedContour minArea c ∧ st.2 < c.area ∧
      detectStep minArea st c = (c.approx, c.area)) := by
  unfold detectStep
  split_ifs with h1 h2 h3 h4
  · exact Or.inl ⟨rfl, fun hacc => absurd h1 hacc.1⟩
  · exact Or.inr ⟨⟨h1, h2, h3⟩, h4, rfl⟩
  · exact Or.inl ⟨rfl, fun _ => le_of_not_lt h4⟩
  · exact Or.inl ⟨rfl, fun hacc => absurd hacc.2.2 h3⟩
  · exact Or.inl ⟨rfl, fun hacc => absurd hacc.2.1 h2⟩

lemma detect_fold_invariant (minArea : ℚ) (l : List Contour)
    (st : List Point × ℚ) :
    (l.foldl (detectStep minArea) st = st ∨
      ∃ c ∈ l, acceptedContour minArea c ∧
        (l.foldl (detectStep minArea) st).1 = c.approx ∧
        (l.foldl (detectStep minArea) st).2 = c.area) ∧
    st.2 ≤ (l.foldl (detectStep minArea) st).2 ∧
    (∀ c ∈ l, acceptedContour minArea c →
      c.area ≤ (l.foldl (detectStep minArea) st).2) := by
  induction l generalizing st with
  | nil => exact ⟨Or.inl rfl, le_refl _, by simp⟩
  | cons c l ih =>
      rw [List.foldl_cons]
      rcases detectStep_cases minArea st c with ⟨heq, hub⟩ | ⟨hacc, hlt, heq⟩
      · rw [heq]
        obtain ⟨ih1, ih2, ih3⟩ := ih st
        refine ⟨?_, ih2, ?_⟩
        · rcases ih1 with h | ⟨d, hd, hda, hd1, hd2⟩
          · exact Or.inl h
          · exact Or.inr ⟨d, List.mem_cons_of_mem _ hd, hda, hd1, hd2⟩
        · intro d hd hda
          rcases List.mem_cons.mp hd with hd | hd
          · subst hd
            exact le_trans (hub hda) ih2
          · exact ih3 d hd hda
      · rw [heq]
        obtain ⟨ih1, ih2, ih3⟩ := ih (c.approx, c.area)
        refine ⟨?_, le_trans (le_of_lt hlt) ih2, ?_⟩
        · rcases ih1 with h | ⟨d, hd, hda, hd1, hd2⟩
          · exact Or.inr ⟨c, List.mem_cons_self _ _, hacc, by rw [h], by rw [h]⟩
          · exact Or.inr ⟨d, List.mem_cons_of_mem _ hd, hda, hd1, hd2⟩
        · intro d hd hda
          rcases List.mem_cons.mp hd with hd | hd
          · subst hd
            exact ih2
          · exact ih3 d hd hda

lemma detect_fold_no_accept (minArea : ℚ) (l : List Contour)
    (st : List Point × ℚ)
    (h : ∀ c ∈ l, ¬ acceptedContour minArea c) :
    l.foldl (detectStep minArea) st = st := by
  induction l generalizing st with
  | nil => rfl
  | cons c l ih =>
      rw [List.foldl_cons]
      rcases detectStep_cases minArea st c with ⟨heq, _⟩ | ⟨hacc, _, _⟩
      · rw [heq]
        exact ih st (fun d hd => h d (List.mem_cons_of_mem _ hd))
      · exact absurd hacc (h c (List.mem_cons_self _ _))

/-- Claim C6 (amended): `DetectBoard` accepts a contour only if its area is
at least 10% of the image area, its polygon approximation has exactly 4
vertices, and the diagonals satisfy `|d1 - d2| < 0.25 * d1` where `d1` is
the diagonal from the FIRST to the THIRD approximated vertex (not
necessarily the longer one, contrary to the claim as stated); it returns
nil when no contour is accepted, and on a nonempty image with at least one
accepted contour it returns an accepted contour of maximal area. -/
theorem detect_board_amended (rows cols : Nat) (contours : List Contour) :
    ((∀ c ∈ contours, ¬ acceptedContour (detectMinArea rows cols) c) →
      DetectBoard rows cols contours = []) ∧
    (DetectBoard rows cols contours ≠ [] →
      ∃ c ∈ contours, acceptedContour (detectMinArea rows cols) c ∧
        DetectBoard rows cols contours = c.approx ∧
        ∀ d ∈ contours, acceptedContour (detectMinArea rows cols) d →
          d.area ≤ c.area) ∧
    (0 < rows * cols →
      (∃ c ∈ contours, acceptedContour (detectMinArea rows cols) c) →
      DetectBoard rows cols contours ≠ []) := by
  obtain ⟨h1, _h2, h3⟩ :=
    detect_fold_invariant (detectMinArea rows cols) contours ([], 0)
  refine ⟨?_, ?_, ?_⟩
  · intro hnone
    unfold DetectBoard
    rw [detect_fold_no_accept _ _ _ hnone]
  · intro hne
    rcases h1 with h | ⟨c, hc, hacc, hq, ha⟩
    · exact absurd (congrArg Prod.fst h) hne
    · refine ⟨c, hc, hacc, hq, ?_⟩
      intro d hd hda
      have := h3 d hd hda
      rwa [ha] at this
  · rintro hpos ⟨c, hc, hacc⟩
    have hmin : (0 : ℚ) < detectMinArea rows cols := by
      unfold detectMinArea
      have : (0 : ℚ) < ((rows * cols : Nat) : ℚ) := by
        exact_mod_cast hpos
      positivity
    have harea : detectMinArea rows cols ≤ c.area := le_of_not_lt hacc.1
    have hbig : 0 < (contours.foldl (detectStep (detectMinArea rows cols)) ([], 0)).2 :=
      lt_of_lt_of_le (lt_of_lt_of_le hmin harea) (h3 c hc hacc)
    rcases h1 with h | ⟨d, _, hda, hq, _⟩
    · rw [congrArg Prod.snd h] at hbig
      exact absurd hbig (lt_irrefl 0)
    · unfold DetectBoard
      rw [hq]
      intro hnil
      have hlen := hda.2.1
      rw [hnil] at hlen
      exact absurd hlen (by decide)

/-- Counterexample for claim C6 as stated: a candidate meeting every
acceptance condition of the claim (including the longer-diagonal 25%
test) on a 10x10 image, on which `DetectBoard` nevertheless returns no
quadrilateral. -/
theorem detect_board_longer_diag_cex :
    acceptedContourSpec (detectMinArea 10 10) diagCexContour ∧
    DetectBoard 10 10 [diagCexContour] = [] := by
  constructor
  · refine ⟨?_, by decide, by decide⟩
    show ¬ (diagCexContour.area < detectMinArea 10 10)
    norm_num [diagCexContour, detectMinArea]
  · rw [DetectBoard, List.foldl_cons, List.foldl_nil, detectStep,
      if_neg (show ¬ (diagCexContour.area < detectMinArea 10 10) by
        norm_num [diagCexContour, detectMinArea]),
      if_pos (by decide), if_neg (by decide)]

/-- Witness for the amended C6 theorem: a 30x40-diagonal square contour on
a 10x10 image is accepted, and `DetectBoard` returns a quadrilateral. -/
theorem detect_board_amended_witness :
    DetectBoard 10 10 [⟨200, [⟨0, 0⟩, ⟨30, 0⟩, ⟨30, 40⟩, ⟨0, 40⟩]⟩] ≠ [] :=
  (detect_board_amended 10 10 [⟨200, [⟨0, 0⟩, ⟨30, 0⟩, ⟨30, 40⟩, ⟨0, 40⟩]⟩]).2.2
    (by decide)
    ⟨⟨200, [⟨0, 0⟩, ⟨30, 0⟩, ⟨30, 40⟩, ⟨0, 40⟩]⟩, List.mem_cons_self _ _,
      (show ¬ ((200 : ℚ) < detectMinArea 10 10) by norm_num [detectMinArea]),
      by decide, by decide⟩

lemma head?_mem {α : Type} {l : List α} {a : α} (h : l.head? = some a) :
    a ∈ l := by
  cases l with
  | nil => simp at h
  | cons b t =>
      simp only [List.head?_cons, Option.some.injEq] at h
      exact h ▸ List.mem_cons_self _ _

lemma inferMove_mem {Pos Mv : Type} (R : Rules Pos Mv) (pos : Pos)
    (observed : Grid) (m : Mv) (h : InferMove R pos observed = some m) :
    m ∈ inferMatches R pos observed := by
  rw [InferMove] at h
  by_cases h0 : (inferMatches R pos observed).length = 0
  · rw [if_pos h0] at h
    exact absurd h (by simp)
  · rw [if_neg h0] at h
    by_cases h1 : (inferMatches R pos observed).length = 1
    · rw [if_pos h1] at h
      exact head?_mem h
    · rw [if_neg h1] at h
      rcases hf : (inferMatches R pos observed).find?
          (fun m => decide (R.promo m = PieceType.queen)) with _ | mq
      · rw [hf] at h
        exact head?_mem h
      · rw [hf] at h
        simp only [Option.some.injEq] at h
        exact h ▸ List.mem_of_find?_eq_some hf

lemma inferMatches_sound {Pos Mv : Type} (R : Rules Pos Mv) (pos : Pos)
    (observed : Grid) (m : Mv) (h : m ∈ inferMatches R pos observed) :
    m ∈ R.validMoves pos ∧
    occupancyFromBoard R (R.update pos m) = observed := by
  rw [inferMatches, List.mem_filter] at h
  exact ⟨h.1, of_decide_eq_true h.2⟩

/-- Claim C1 (round-trip law): whenever `InferMove` on position `pos` with
observed grid `observed` returns a move `m`, applying `m` to `pos`
succeeds and yields a position whose expected occupancy equals the
observed grid. -/
theorem infer_move_roundtrip {Pos Mv : Type} [DecidableEq Mv]
    (R : Rules Pos Mv) (pos : Pos) (observed : Grid) (m : Mv)
    (h : InferMove R pos observed = some m) :
    ApplyMove R pos m = some (R.update pos m) ∧
    ExpectedOccupancy R (R.update pos m) = observed := by
  obtain ⟨hvalid, hocc⟩ :=
    inferMatches_sound R pos observed m (inferMove_mem R pos observed m h)
  exact ⟨by rw [ApplyMove, if_pos hvalid], hocc⟩

/-- Claim C4: when more than one legal move matches the observed grid,
`InferMove` returns a (first) queen-promotion match if one exists among
the matches, and the first enumerated match otherwise. -/
theorem infer_move_tiebreak {Pos Mv : Type} (R : Rules Pos Mv) (pos : Pos)
    (observed : Grid)
    (h2 : 2 ≤ (inferMatches R pos observed).length) :
    ((∃ m ∈ inferMatches R pos observed, R.promo m = PieceType.queen) →
      ∃ m, InferMove R pos observed = some m ∧
        R.promo m = PieceType.queen ∧ m ∈ inferMatches R pos observed) ∧
    ((∀ m ∈ inferMatches R pos observed, R.promo m ≠ PieceType.queen) →
      InferMove R pos observed = (inferMatches R pos observed).head?) := by
  have h0 : ¬ (inferMatches R pos observed).length = 0 := by omega
  have h1 : ¬ (inferMatches R pos observed).length = 1 := by omega
  have hform : InferMove R pos observed =
      (match (inferMatches R pos observed).find?
          (fun m => decide (R.promo m = PieceType.queen)) with
        | some m => some m
        | none => (inferMatches R pos observed).head?) := by
    rw [InferMove, if_neg h0, if_neg h1]
  constructor
  · rintro ⟨mq, hmem, hq⟩
    have hsome : ((inferMatches R pos observed).find?
        (fun m => decide (R.promo m = PieceType.queen))).isSome := by
      exact List.find?_isSome.mpr ⟨mq, hmem, by simp [hq]⟩
    rcases hf : (inferMatches R pos observed).find?
        (fun m => decide (R.promo m = PieceType.queen)) with _ | mf
    · rw [hf] at hsome
      simp at hsome
    · refine ⟨mf, by rw [hform, hf], ?_, List.mem_of_find?_eq_some hf⟩
      have := List.find?_some hf
      exact of_decide_eq_true this
  · intro hnone
    have hf : (inferMatches R pos observed).find?
        (fun m => decide (R.promo m = PieceType.queen)) = none := by
      apply List.find?_eq_none.mpr
      intro x hx
      simp only [decide_eq_true_eq]
      exact hnone x hx
    rw [hform, hf]

/-- Witness for C1 at the demo instance: `InferMove` returns move 1 and
the round-trip law holds there. -/
theorem infer_move_roundtrip_witness :
    ApplyMove demoRules 0 1 = some (demoRules.update 0 1) ∧
    ExpectedOccupancy demoRules (demoRules.update 0 1) = demoObserved :=
  infer_move_roundtrip demoRules 0 demoObserved 1 (by decide)

/-- Witness for C4 at the demo instance: both moves match, move 1 is the
queen promotion and is returned. -/
theorem infer_move_tiebreak_witness :
    ∃ m, InferMove demoRules 0 demoObserved = some m ∧
      demoRules.promo m = PieceType.queen ∧
      m ∈ inferMatches demoRules 0 demoObserved :=
  (infer_move_tiebreak demoRules 0 demoObserved (by decide)).1
    ⟨1, by decide, by decide⟩

section StepLemmas

variable {Pos Mv : Type} [DecidableEq Mv] (R : Rules Pos Mv)

variable (s : MachineState Pos) (occ : Grid) (now : Nat)

lemma states_succ (s0 : MachineState Pos) (f : Nat → Grid × Nat) (n : Nat) :
    states R s0 f (n + 1) =
      (frameStep R (states R s0 f n) (f n).1 (f n).2).1 :=
  rfl

lemma pendingUpdate_same (hp : occ = s.pendingOcc) :
    pendingUpdate s occ = { s with stableDiffCount := s.stableDiffCount + 1 } := by
  rw [pendingUpdate, if_pos hp]

lemma pendingUpdate_diff (hnp : ¬ occ = s.pendingOcc) :
    pendingUpdate s occ =
      { s with pendingOcc := occ, stableDiffCount := 1, settling := false } := by
  rw [pendingUpdate, if_neg hnp]

lemma settleCheck_skip (s1 : MachineState Pos)
    (h : s1.settling = true ∨ s1.stableDiffCount < stabilityThreshold) :
    settleCheck s1 now = s1 := by
  rw [settleCheck, if_neg]
  rcases h with h | h
  · simp [h]
  · simp
    omega

lemma settleCheck_entry (s1 : MachineState Pos) (h1 : s1.settling = false)
    (h2 : stabilityThreshold ≤ s1.stableDiffCount) :
    settleCheck s1 now = { s1 with settling := true, settleStart := now } := by
  rw [settleCheck, if_pos ⟨by simp [h1], h2⟩]

lemma frameStep_not_playing (hph : ¬ s.phase = AppState.playing) :
    frameStep R s occ now = (s, ⟨false, none, none, false⟩) := by
  rw [frameStep, if_neg hph]

lemma frameStep_matched (hph : s.phase = AppState.playing)
    (heq : occ = ExpectedOccupancy R s.pos) :
    frameStep R s occ now =
      ({ s with
          stableDiffCount := 0
          settling := false
          invalidMoveActive := false },
       ⟨false, none, none, s.invalidMoveActive⟩) := by
  rw [frameStep, if_pos hph, if_neg (not_not_intro heq)]

lemma frameStep_newDiff (hph : s.phase = AppState.playing)
    (hne : occ ≠ ExpectedOccupancy R s.pos) (hnp : ¬ occ = s.pendingOcc) :
    frameStep R s occ now =
      ({ s with pendingOcc := occ, stableDiffCount := 1, settling := false },
       ⟨false, none, none, false⟩) := by
  have hs2 : settleCheck (pendingUpdate s occ) now =
      { s with pendingOcc := occ, stableDiffCount := 1, settling := false } := by
    rw [pendingUpdate_diff s occ hnp]
    exact settleCheck_skip now _ (Or.inr (by simp [stabilityThreshold]))
  rw [frameStep, if_pos hph, if_pos hne, hs2, if_neg (by simp)]

lemma frameStep_samePending_below (hph : s.phase = AppState.playing)
    (hne : occ ≠ ExpectedOccupancy R s.pos) (hp : occ = s.pendingOcc)
    (hns : s.settling = false) (hth : s.stableDiffCount < 4) :
    frameStep R s occ now =
      ({ s with stableDiffCount := s.stableDiffCount + 1 },
       ⟨false, none, none, false⟩) := by
  have hs2 : settleCheck (pendingUpdate s occ) now =
      { s with stableDiffCount := s.stableDiffCount + 1 } := by
    rw [pendingUpdate_same s occ hp]
    exact settleCheck_skip now _ (Or.inr (by simp [stabilityThreshold]; omega))
  rw [frameStep, if_pos hph, if_pos hne, hs2, if_neg (by simp [hns])]

lemma frameStep_samePending_entry (hph : s.phase = AppState.playing)
    (hne : occ ≠ ExpectedOccupancy R s.pos) (hp : occ = s.pendingOcc)
    (hns : s.settling = false) (hth : 4 ≤ s.stableDiffCount) :
    frameStep R s occ now =
      ({ s with
          stableDiffCount := s.stableDiffCount + 1
          settling := true
          settleStart := now },
       ⟨false, none, none, false⟩) := by
  have hs2 : settleCheck (pendingUpdate s occ) now =
      ({ s with
          stableDiffCount := s.stableDiffCount + 1
          settling := true
          settleStart := now }) := by
    rw [pendingUpdate_same s occ hp]
    exact settleCheck_entry now _ (by simp [hns]) (by simp [stabilityThreshold]; omega)
  rw [frameStep, if_pos hph, if_pos hne, hs2, if_neg (by simp [settleDelay])]

lemma frameStep_samePending_wait (hph : s.phase = AppState.playing)
    (hne : occ ≠ ExpectedOccupancy R s.pos) (hp : occ = s.pendingOcc)
    (hs : s.settling = true) (hnd : ¬ settleDelay ≤ now - s.settleStart) :
    frameStep R s occ now =
      ({ s with stableDiffCount := s.stableDiffCount + 1 },
       ⟨false, none, none, false⟩) := by
  have hs2 : settleCheck (pendingUpdate s occ) now =
      { s with stableDiffCount := s.stableDiffCount + 1 } := by
    rw [pendingUpdate_same s occ hp]
    exact settleCheck_skip now _ (Or.inl (by simp [hs]))
  rw [frameStep, if_pos hph, if_pos hne, hs2, if_neg (by simp [hs, hnd])]

lemma frameStep_fire_form (hph : s.phase = AppState.playing)
    (hne : occ ≠ ExpectedOccupancy R s.pos) (hp : occ = s.pendingOcc)
    (hs : s.settling = true) (hd : settleDelay ≤ now - s.settleStart) :
    frameStep R s occ now =
      (match InferMove R s.pos occ with
        | none =>
            ({ s with
                stableDiffCount := 0
                settling := false
                invalidMoveActive := true },
             ⟨true, some (diffSquares (ExpectedOccupancy R s.pos) occ),
              none, false⟩)
        | some m =>
            match ApplyMove R s.pos m with
            | none =>
                ({ s with
                    stableDiffCount := 0
                    settling := false
                    invalidMoveActive := false },
                 ⟨true, none, none, false⟩)
            | some pos2 =>
                ({ s with
                    stableDiffCount := 0
                    settling := false
                    invalidMoveActive := false
                    pos := pos2
                    phase := (if R.isOver pos2 then AppState.gameOver
                      else AppState.playing) },
                 ⟨true, none, some m, false⟩)) := by
  have hs2 : settleCheck (pendingUpdate s occ) now =
      { s with stableDiffCount := s.stableDiffCount + 1 } := by
    rw [pendingUpdate_same s occ hp]
    exact settleCheck_skip now _ (Or.inl (by simp [hs]))
  rw [frameStep, if_pos hph, if_pos hne, hs2, if_pos ⟨by simpa using hs, by simpa using hd⟩]

lemma frameStep_fire_noMatch (hph : s.phase = AppState.playing)
    (hne : occ ≠ ExpectedOccupancy R s.pos) (hp : occ = s.pendingOcc)
    (hs : s.settling = true) (hd : settleDelay ≤ now - s.settleStart)
    (hnm : InferMove R s.pos occ = none) :
    frameStep R s occ now =
      ({ s with
          stableDiffCount := 0
          settling := false
          invalidMoveActive := true },
       ⟨true, some (diffSquares (ExpectedOccupancy R s.pos) occ),
        none, false⟩) := by
  rw [frameStep_fire_form R s occ now hph hne hp hs hd, hnm]

lemma frameStep_fire_invoked (hph : s.phase = AppState.playing)
    (hne : occ ≠ ExpectedOccupancy R s.pos) (hp : occ = s.pendingOcc)
    (hs : s.settling = true) (hd : settleDelay ≤ now - s.settleStart) :
    (frameStep R s occ now).2.inferInvoked = true ∧
    (frameStep R s occ now).1.stableDiffCount = 0 ∧
    (frameStep R s occ now).1.settling = false := by
  rw [frameStep_fire_form R s occ now hph hne hp hs hd]
  rcases hI : InferMove R s.pos occ with _ | m
  · simp
  · rcases hA : ApplyMove R s.pos m with _ | pos2 <;> simp [hA]

lemma invoked_conditions
    (h : (frameStep R s occ now).2.inferInvoked = true) :
    s.phase = AppState.playing ∧
    occ ≠ ExpectedOccupancy R s.pos ∧
    occ = s.pendingOcc ∧
    s.settling = true ∧
    settleDelay ≤ now - s.settleStart := by
  by_cases hph : s.phase = AppState.playing
  · by_cases heq : occ = ExpectedOccupancy R s.pos
    · rw [frameStep_matched R s occ now hph heq] at h
      simp at h
    · by_cases hp : occ = s.pendingOcc
      · by_cases hs : s.settling = true
        · by_cases hd : settleDelay ≤ now - s.settleStart
          · exact ⟨hph, heq, hp, hs, hd⟩
          · rw [frameStep_samePending_wait R s occ now hph heq hp hs hd] at h
            simp at h
        · have hns : s.settling = false := by
            cases hb : s.settling
            · rfl
            · exact absurd hb hs
          by_cases hth : 4 ≤ s.stableDiffCount
          · rw [frameStep_samePending_entry R s occ now hph heq hp hns hth] at h
            simp at h
          · rw [frameStep_samePending_below R s occ now hph heq hp hns
              (by omega)] at h
            simp at h
      · rw [frameStep_newDiff R s occ now hph heq hp] at h
        simp at h
  · rw [frameStep_not_playing R s occ now hph] at h
    simp at h

end StepLemmas

section Invariant

variable {Pos Mv : Type} [DecidableEq Mv] (R : Rules Pos Mv)

variable (s0 : MachineState Pos) (f : Nat → Grid × Nat)

lemma debounce_invariant (h0c : s0.stableDiffCount = 0)
    (h0s : s0.settling = false) :
    ∀ n, DebounceInv R s0 f n := by
  intro n
  induction n with
  | zero =>
      refine ⟨?_, ?_, ?_⟩
      · intro h
        have : (states R s0 f 0).stableDiffCount = 0 := h0c
        omega
      · intro _
        have : (states R s0 f 0).stableDiffCount = 0 := h0c
        omega
      · intro h
        have : (states R s0 f 0).settling = false := h0s
        rw [this] at h
        simp at h
  | succ n ih =>
      obtain ⟨ia, ib, ic⟩ := ih
      by_cases hph : (states R s0 f n).phase = AppState.playing
      · by_cases heq : (f n).1 =
            ExpectedOccupancy R (states R s0 f n).pos
        · -- observed matches expected: full reset
          have hS : states R s0 f (n + 1) =
              { states R s0 f n with
                  stableDiffCount := 0
                  settling := false
                  invalidMoveActive := false } := by
            rw [states_succ, frameStep_matched R _ _ _ hph heq]
          refine ⟨?_, ?_, ?_⟩
          · intro h
            rw [hS] at h
            simp at h
          · intro _
            rw [hS]
            simp
          · intro h
            rw [hS] at h
            simp at h
        · by_cases hp : (f n).1 = (states R s0 f n).pendingOcc
          · -- identical mismatching frame: streak extends
            have hcn : (states R s0 f n).stableDiffCount ≤ n := by
              by_cases h1c : 1 ≤ (states R s0 f n).stableDiffCount
              · exact (ia h1c).2.1
              · omega
            have hwin : ∀ i,
                n - (states R s0 f n).stableDiffCount ≤ i →
                i < n + 1 →
                (f i).1 = (states R s0 f n).pendingOcc := by
              intro i h1 h2
              by_cases hin : i < n
              · by_cases h1c : 1 ≤ (states R s0 f n).stableDiffCount
                · exact (ia h1c).2.2.2 i h1 hin
                · exact absurd hin (by omega)
              · have : i = n := by omega
                subst this
                exact hp
            have hpne : (states R s0 f n).pendingOcc ≠
                ExpectedOccupancy R (states R s0 f n).pos := by
              rw [← hp]
              exact heq
            by_cases hs : (states R s0 f n).settling = true
            · by_cases hd : settleDelay ≤
                  (f n).2 - (states R s0 f n).settleStart
              · -- settle period over: inference fires, counters reset
                have hfi := frameStep_fire_invoked R _ _ (f n).2 hph heq hp hs hd
                refine ⟨?_, ?_, ?_⟩
                · intro h
                  rw [states_succ, hfi.2.1] at h
                  omega
                · intro _
                  rw [states_succ, hfi.2.1]
                  omega
                · intro h
                  rw [states_succ, hfi.2.2] at h
                  simp at h
              · -- waiting inside the settle period
                have hS : states R s0 f (n + 1) =
                    { states R s0 f n with
                        stableDiffCount :=
                          (states R s0 f n).stableDiffCount + 1 } := by
                  rw [states_succ, frameStep_samePending_wait R _ _ _ hph heq hp hs hd]
                obtain ⟨hcp, hcne, j, hj1, hj2, hj3, hj4, hj5, hj6, hj7⟩ := ic hs
                refine ⟨?_, ?_, ?_⟩
                · intro _
                  rw [hS]
                  refine ⟨hph, by simp; omega, hpne, ?_⟩
                  intro i h1 h2
                  simp only at h1 h2
                  exact hwin i (by omega) h2
                · intro h
                  rw [hS] at h
                  simp only at h
                  exact absurd h (by simp [hs])
                · intro _
                  rw [hS]
                  refine ⟨hph, hpne, j, by omega, hj2, hj3, hj4, hj5, hj6, ?_⟩
                  intro i h1 h2
                  by_cases hin : i < n
                  · exact hj7 i h1 hin
                  · have : i = n := by omega
                    subst this
                    exact hp
            · have hns : (states R s0 f n).settling = false := by
                cases hb : (states R s0 f n).settling
                · rfl
                · exact absurd hb hs
              by_cases hth : 4 ≤ (states R s0 f n).stableDiffCount
              · -- the streak reaches exactly 5: settle period starts now
                have hc4 : (states R s0 f n).stableDiffCount = 4 :=
                  le_antisymm (ib hns) hth
                have ha := ia (by omega)
                have h4n : 4 ≤ n := by omega
                have hS : states R s0 f (n + 1) =
                    { states R s0 f n with
                        stableDiffCount :=
                          (states R s0 f n).stableDiffCount + 1
                        settling := true
                        settleStart := (f n).2 } := by
                  rw [states_succ, frameStep_samePending_entry R _ _ _ hph heq hp hns hth]
                refine ⟨?_, ?_, ?_⟩
                · intro _
                  rw [hS]
                  refine ⟨hph, by simp; omega, hpne, ?_⟩
                  intro i h1 h2
                  simp only at h1 h2
                  exact hwin i (by omega) h2
                · intro h
                  rw [hS] at h
                  simp at h
                · intro _
                  rw [hS]
                  refine ⟨hph, hpne, n, by omega, h4n, rfl, hns, hc4, ?_, ?_⟩
                  · rw [hS]
                  · intro i h1 h2
                    exact hwin i (by omega) h2
              · -- streak still below the threshold
                have hS : states R s0 f (n + 1) =
                    { states R s0 f n with
                        stableDiffCount :=
                          (states R s0 f n).stableDiffCount + 1 } := by
                  rw [states_succ,
                    frameStep_samePending_below R _ _ _ hph heq hp hns (by omega)]
                refine ⟨?_, ?_, ?_⟩
                · intro _
                  rw [hS]
                  refine ⟨hph, by simp; omega, hpne, ?_⟩
                  intro i h1 h2
                  simp only at h1 h2
                  exact hwin i (by omega) h2
                · intro _
                  rw [hS]
                  simp only
                  omega
                · intro h
                  rw [hS] at h
                  simp only at h
                  exact absurd h (by simp [hns])
          · -- a different mismatching frame: streak restarts at 1
            have hS : states R s0 f (n + 1) =
                { states R s0 f n with
                    pendingOcc := (f n).1
                    stableDiffCount := 1
                    settling := false } := by
              rw [states_succ, frameStep_newDiff R _ _ _ hph heq hp]
            refine ⟨?_, ?_, ?_⟩
            · intro _
              rw [hS]
              refine ⟨hph, by simp, heq, ?_⟩
              intro i h1 h2
              simp only at h1 h2
              have : i = n := by omega
              subst this
              rfl
            · intro _
              rw [hS]
              simp
            · intro h
              rw [hS] at h
              simp at h
      · -- not playing: the frame is ignored
        have hS : states R s0 f (n + 1) =
            states R s0 f n := by
          rw [states_succ, frameStep_not_playing R _ _ _ hph]
        refine ⟨?_, ?_, ?_⟩
        · intro h
          rw [hS] at h
          exact absurd (ia h).1 hph
        · intro h
          rw [hS] at h ⊢
          exact ib h
        · intro h
          rw [hS] at h
          exact absurd (ic h).1 hph

end Invariant

/-- Claim C2 (amended): in the Playing state, `InferMove` runs only after
the streak of identical mismatching frames reached exactly
`stabilityThreshold` (the settle period was entered at a frame `j` where
the counter stood at 4 and frames `j-4 .. j` all showed the grid that is
finally inferred), every frame between entry and inference showed that
same grid, and the full `settleDelay` elapsed between the entry frame and
the inference frame.  A frame during settling that differs from both the
pending and the expected grid aborts settling and restarts the count at 1;
a frame that matches the expected grid aborts settling but resets the
count to 0 (not 1 as the claim states). -/
theorem debounce_amended {Pos Mv : Type} [DecidableEq Mv] (R : Rules Pos Mv) :
    (∀ (s0 : MachineState Pos) (f : Nat → Grid × Nat),
      s0.stableDiffCount = 0 → s0.settling = false →
      ∀ n, invokedAt R s0 f n = true →
        (f n).1 ≠ ExpectedOccupancy R (states R s0 f n).pos ∧
        (f n).1 = (states R s0 f n).pendingOcc ∧
        ∃ j, 4 ≤ j ∧ j < n ∧
          (states R s0 f j).settling = false ∧
          (states R s0 f j).stableDiffCount = 4 ∧
          (states R s0 f (j + 1)).settling = true ∧
          (states R s0 f n).settleStart = (f j).2 ∧
          settleDelay ≤ (f n).2 - (f j).2 ∧
          (∀ i, j - 4 ≤ i → i ≤ n → (f i).1 = (f n).1)) ∧
    (∀ (s : MachineState Pos) (occ : Grid) (now : Nat),
      s.phase = AppState.playing → s.settling = true →
      occ ≠ ExpectedOccupancy R s.pos → occ ≠ s.pendingOcc →
      (frameStep R s occ now).1.settling = false ∧
      (frameStep R s occ now).1.stableDiffCount = 1 ∧
      (frameStep R s occ now).1.pendingOcc = occ ∧
      (frameStep R s occ now).2.inferInvoked = false) ∧
    (∀ (s : MachineState Pos) (occ : Grid) (now : Nat),
      s.phase = AppState.playing →
      occ = ExpectedOccupancy R s.pos →
      (frameStep R s occ now).1.settling = false ∧
      (frameStep R s occ now).1.stableDiffCount = 0 ∧
      (frameStep R s occ now).2.inferInvoked = false) := by
  refine ⟨?_, ?_, ?_⟩
  · intro s0 f h0c h0s n hfire
    obtain ⟨hph, hne, hp, hs, hd⟩ :=
      invoked_conditions R (states R s0 f n) (f n).1 (f n).2 hfire
    obtain ⟨_, _, ic⟩ := debounce_invariant R s0 f h0c h0s n
    obtain ⟨_, hpne, j, hj1, hj2, hj3, hj4, hj5, hj6, hj7⟩ := ic hs
    refine ⟨hne, hp, j, hj2, hj1, hj4, hj5, hj6, hj3, ?_, ?_⟩
    · rw [hj3] at hd
      exact hd
    · intro i h1 h2
      by_cases hin : i < n
      · rw [hp]
        exact hj7 i h1 hin
      · have : i = n := by omega
        subst this
        rfl
  · intro s occ now hph hs hne hnp
    rw [frameStep_newDiff R s occ now hph hne hnp]
    exact ⟨rfl, rfl, rfl, rfl⟩
  · intro s occ now hph heq
    rw [frameStep_matched R s occ now hph heq]
    exact ⟨rfl, rfl, rfl⟩

/-- Counterexample for claim C2 as stated: after five identical
mismatching frames the machine is settling; the sixth frame differs from
the pending grid (it matches the expected grid), which aborts settling
but resets the consecutive-match count to 0, not to 1 as the claim
demands for every frame differing from the pending grid. -/
theorem debounce_restart_cex :
    (states demoRules startState cexTrace 5).settling = true ∧
    (cexTrace 5).1 ≠ (states demoRules startState cexTrace 5).pendingOcc ∧
    (states demoRules startState cexTrace 6).stableDiffCount = 0 ∧
    (states demoRules startState cexTrace 6).settling = false := by
  decide

/-- Witness for the amended C2 theorem: on the demo instance the machine
fires inference at frame 5, and the invocation-shape conclusion holds. -/
theorem debounce_amended_witness :
    invokedAt demoRules startState witTrace 5 = true ∧
    ((witTrace 5).1 ≠
        ExpectedOccupancy demoRules (states demoRules startState witTrace 5).pos ∧
      (witTrace 5).1 = (states demoRules startState witTrace 5).pendingOcc ∧
      ∃ j, 4 ≤ j ∧ j < 5 ∧
        (states demoRules startState witTrace j).settling = false ∧
        (states demoRules startState witTrace j).stableDiffCount = 4 ∧
        (states demoRules startState witTrace (j + 1)).settling = true ∧
        (states demoRules startState witTrace 5).settleStart = (witTrace j).2 ∧
        settleDelay ≤ (witTrace 5).2 - (witTrace j).2 ∧
        (∀ i, j - 4 ≤ i → i ≤ 5 → (witTrace i).1 = (witTrace 5).1)) :=
  ⟨by decide,
   (debounce_amended demoRules).1 startState witTrace rfl rfl 5 (by decide)⟩

/-- Claim C3: when no legal move matches the observed grid, `InferMove`
reports an error (not a move); the frame sets the invalid-move flag and
flashes exactly the squares where observed and expected occupancy differ,
leaves the position unchanged and stays in Playing; and a frame whose
occupancy equals the expected grid clears the flag (reporting board
corrected exactly when the flag was set). -/
theorem invalid_move_flag {Pos Mv : Type} [DecidableEq Mv] (R : Rules Pos Mv) :
    (∀ (s : MachineState Pos) (occ : Grid) (now : Nat),
      s.phase = AppState.playing →
      occ ≠ ExpectedOccupancy R s.pos →
      occ = s.pendingOcc →
      s.settling = true →
      settleDelay ≤ now - s.settleStart →
      (∀ m ∈ R.validMoves s.pos,
        occupancyFromBoard R (R.update s.pos m) ≠ occ) →
      InferMove R s.pos occ = none ∧
      frameStep R s occ now =
        ({ s with
            stableDiffCount := 0
            settling := false
            invalidMoveActive := true },
         ⟨true, some (diffSquares (ExpectedOccupancy R s.pos) occ),
          none, false⟩)) ∧
    (∀ e o : Grid, ∀ r c : Nat,
      (r, c) ∈ diffSquares e o ↔
        r < 8 ∧ c < 8 ∧ getCell e r c ≠ getCell o r c) ∧
    (∀ (s : MachineState Pos) (occ : Grid) (now : Nat),
      s.phase = AppState.playing →
      occ = ExpectedOccupancy R s.pos →
      (frameStep R s occ now).1.invalidMoveActive = false ∧
      (frameStep R s occ now).1.pos = s.pos ∧
      (frameStep R s occ now).1.phase = AppState.playing ∧
      (frameStep R s occ now).2.boardCorrected =
        s.invalidMoveActive) := by
  refine ⟨?_, ?_, ?_⟩
  · intro s occ now hph hne hp hs hd hno
    have hmatches : inferMatches R s.pos occ = [] := by
      rw [inferMatches, List.filter_eq_nil_iff]
      intro m hm
      simpa using hno m hm
    have hnone : InferMove R s.pos occ = none := by
      rw [InferMove, hmatches]
      rfl
    exact ⟨hnone, frameStep_fire_noMatch R s occ now hph hne hp hs hd hnone⟩
  · intro e o r c
    constructor
    · intro h
      simp only [diffSquares, List.mem_flatMap, List.mem_filterMap,
        List.mem_range] at h
      obtain ⟨a, ha, b, hb, hsome⟩ := h
      by_cases hcell : getCell e a b ≠ getCell o a b
      · rw [if_pos hcell] at hsome
        obtain ⟨rfl, rfl⟩ := Prod.mk.injEq .. ▸ Option.some.injEq .. ▸ hsome
        exact ⟨ha, hb, hcell⟩
      · rw [if_neg hcell] at hsome
        simp at hsome
    · rintro ⟨h1, h2, h3⟩
      simp only [diffSquares, List.mem_flatMap, List.mem_filterMap,
        List.mem_range]
      exact ⟨r, h1, c, h2, by rw [if_pos h3]⟩
  · intro s occ now hph heq
    rw [frameStep_matched R s occ now hph heq]
    exact ⟨rfl, rfl, hph, rfl⟩

/-- Witness for C3: on the demo instance, the all-empty grid matches no
legal move of position 0; inference errs and the frame raises the flag
with exactly the differing squares. -/
theorem invalid_move_flag_witness :
    InferMove demoRules 0 emptyGrid = none ∧
    frameStep demoRules invalidWitState emptyGrid 2000 =
      ({ invalidWitState with
          stableDiffCount := 0
          settling := false
          invalidMoveActive := true },
       ⟨true, some (diffSquares (ExpectedOccupancy demoRules 0) emptyGrid),
        none, false⟩) :=
  (invalid_move_flag demoRules).1 invalidWitState emptyGrid 2000
    rfl (by decide) rfl rfl (by decide) (by decide)

lemma getD_map_range {α : Type} (g : Nat → α) (d : α) (i : Nat)
    (hi : i < 8) :
    (List.map g (List.range 8)).getD i d = g i := by
  rw [List.getD_eq_getElem?_getD, List.getElem?_map, List.getElem?_range hi]
  rfl

lemma getCell_map_range (g : Nat → Nat → Bool) (r c : Nat)
    (hr : r < 8) (hc : c < 8) :
    getCell ((List.range 8).map (fun row =>
      (List.range 8).map (fun col => g row col))) r c = g r c := by
  rw [getCell, getD_map_range _ _ r hr]
  show (List.map (fun col => g r col) (List.range 8)).getD c false = g r c
  exact getD_map_range _ _ c hc

/-- Claim C7: in `ScanBoardAbsolute`, every square of the 8x8 grid is
marked occupied if and only if its stddev exceeds the high variance
threshold, or its edge percentage exceeds the high edge threshold, or
both exceed the lower joint thresholds simultaneously. -/
theorem scan_board_absolute_occupied (sd edgePct : Nat → Nat → ℚ)
    (r c : Nat) (hr : r < 8) (hc : c < 8) :
    getCell (ScanBoardAbsolute sd edgePct) r c = true ↔
      (sd r c > absVarianceThreshold ∨ edgePct r c > absEdgeThreshold ∨
        (sd r c > absCombinedVarMin ∧
          edgePct r c > absCombinedEdgeMin)) := by
  rw [ScanBoardAbsolute, getCell_map_range _ r c hr hc]
  simp

/-- Witness for C7: square (0,0) trips the high variance threshold,
square (1,1) trips only the combined test, square (2,2) stays empty. -/
theorem scan_board_absolute_occupied_witness :
    getCell (ScanBoardAbsolute scanWitSd scanWitEdge) 0 0 = true ∧
    getCell (ScanBoardAbsolute scanWitSd scanWitEdge) 1 1 = true ∧
    getCell (ScanBoardAbsolute scanWitSd scanWitEdge) 2 2 = false :=
  ⟨(scan_board_absolute_occupied scanWitSd scanWitEdge 0 0
      (by decide) (by decide)).mpr
    (Or.inl (by norm_num [scanWitSd, absVarianceThreshold])),
   (scan_board_absolute_occupied scanWitSd scanWitEdge 1 1
      (by decide) (by decide)).mpr
    (Or.inr (Or.inr ⟨by norm_num [scanWitSd, absCombinedVarMin],
      by norm_num [scanWitEdge, absCombinedEdgeMin]⟩)),
   by
    have h := scan_board_absolute_occupied scanWitSd scanWitEdge 2 2
      (by decide) (by decide)
    rw [Bool.eq_false_iff]
    intro hcon
    have := h.mp hcon
    rcases this with h1 | h2 | ⟨h3, _⟩
    · rw [show scanWitSd 2 2 = 0 by norm_num [scanWitSd]] at h1
      norm_num [absVarianceThreshold] at h1
    · rw [show scanWitEdge 2 2 = 0 by norm_num [scanWitEdge]] at h2
      norm_num [absEdgeThreshold] at h2
    · rw [show scanWitSd 2 2 = 0 by norm_num [scanWitSd]] at h3
      norm_num [absCombinedVarMin] at h3⟩

end Nayan
